import Mathlib

/-!
# Verification of the e-commerce backend (`src/main.py`)

A shallow embedding of the backend's serialization layer and request
handlers, together with proofs of the specified properties.

Conventions:
* Python `Optional[str]` query parameters become `Option String`.
* Python truthiness of a string (`if category:`) is embedded explicitly.
* The document store (an external collaborator reached through the
  `database` module, which is not part of the sources) is modelled from
  the spec: find-many with a filter supporting case-insensitive regex
  match and logical OR, insert-one returning an assigned identifier,
  and distinct-values-of-field.
* MongoDB ObjectId values are modelled as an opaque type (`BVal.vOid`)
  with an opaque injective stringification.
* Python floats are idealized as rationals (`ℚ`).
-/

namespace Backend

/-! ## The store's regex matcher

Modelled from the spec: the document store accepts filter expressions
with case-insensitive regex match (`$regex` with `$options: "i"`).
We model the PCRE fragment actually generated by the handlers: literal
characters, the wildcard `.`, a leading `^` anchor and a trailing `$`
anchor.  Case-insensitivity is character-wise `Char.toLower` folding. -/

/-- One pattern character matches one text character: `.` matches
anything, any other character matches case-insensitively. -/
def chMatch (p t : Char) : Bool :=
  p == '.' || p.toLower == t.toLower

/-- The pattern matches some prefix of the text. -/
def prefixMatch : List Char → List Char → Bool
  | [], _ => true
  | _ :: _, [] => false
  | p :: ps, t :: ts => chMatch p t && prefixMatch ps ts

/-- The pattern matches the whole text. -/
def litFull : List Char → List Char → Bool
  | [], [] => true
  | [], _ :: _ => false
  | _ :: _, [] => false
  | p :: ps, t :: ts => chMatch p t && litFull ps ts

/-- The pattern matches starting at some position of the text
(unanchored search). -/
def searchAny (p : List Char) : List Char → Bool
  | [] => prefixMatch p []
  | t :: ts => prefixMatch p (t :: ts) || searchAny p ts

/-- The pattern matches some suffix-aligned position: a match ending
exactly at the end of the text (end-anchored search). -/
def endSearch (p : List Char) : List Char → Bool
  | [] => litFull p []
  | t :: ts => litFull p (t :: ts) || endSearch p ts

/-- Strip a leading `^` anchor. -/
def stripCaret (l : List Char) : Bool × List Char :=
  match l with
  | [] => (false, [])
  | ch :: r => if ch = '^' then (true, r) else (false, ch :: r)

/-- Strip a trailing `$` anchor. -/
def stripDollar (l : List Char) : Bool × List Char :=
  match l.reverse with
  | [] => (false, l)
  | ch :: r => if ch = '$' then (true, r.reverse) else (false, l)

/-- Case-insensitive regex search of `pat` inside `text`, Mongo
`{$regex: pat, $options: "i"}` semantics on the fragment generated by
the handlers.  An (unanchored) regex filter matches a document field if
the pattern matches anywhere inside the field. -/
def regexMatchCI (pat text : String) : Bool :=
  let a1 := stripCaret pat.data
  let a2 := stripDollar a1.snd
  if a1.fst then
    if a2.fst then litFull a2.snd text.data else prefixMatch a2.snd text.data
  else
    if a2.fst then endSearch a2.snd text.data else searchAny a2.snd text.data

/-! ## Data model and query filters -/

/-- The fields of a stored product that the query filters inspect
(`src/main.py`, data model of §3 of the spec). -/
structure Product where
  title : String
  description : String
  category : String
  tags : List String
  deriving DecidableEq, Repr

/-- A validated order item (`OrderItem` schema in `src/main.py`); the
pydantic `ge=1` bound on `quantity` is the validation gate of
`create_order_endpoint` below. -/
structure RawOrderItem where
  product_id : String
  title : String
  price : ℚ
  quantity : ℤ
  deriving DecidableEq, Repr

/-- The validated order payload (`OrderCreate` schema in `src/main.py`). -/
structure OrderCreate where
  name : String
  email : String
  address : String
  items : List RawOrderItem
  notes : Option String
  deriving DecidableEq, Repr

/-- A stored order document: the dumped `OrderCreate` payload plus the
computed `total` (`create_order` in `src/main.py`). -/
structure OrderDoc where
  name : String
  email : String
  address : String
  items : List RawOrderItem
  notes : Option String
  total : ℚ
  deriving DecidableEq, Repr

/-- The query filter built by `list_products`: an optional anchored
regex on the `category` field and an optional `$or` clause generated
from one search string. -/
structure Query where
  categoryPat : Option String
  searchPat : Option String
  deriving DecidableEq, Repr

/-- Python string-option truthiness: `if category:` is true exactly for
a present, non-empty string. -/
def optTruthy : Option String → Bool
  | none => false
  | some s => !(s == "")

/-- The filter construction of `list_products` (`src/main.py` lines
149–157): `category` becomes the anchored case-insensitive regex
`^category$`, `search` becomes a `$or` of unanchored case-insensitive
regexes over title, description and tags. -/
def buildQuery (category search : Option String) : Query :=
  { categoryPat :=
      if optTruthy category then some ("^" ++ category.getD "" ++ "$") else none
    searchPat := if optTruthy search then search else none }

/-- Modelled from the spec: the store's evaluation of the filter against
one product document.  The `category` clause applies its regex to the
category field; the `$or` clause is satisfied if the search regex
matches the title, the description, or some element of the `tags`
array (Mongo applies a regex filter on an array field elementwise). -/
def matchesQuery (q : Query) (p : Product) : Bool :=
  (match q.categoryPat with
   | none => true
   | some pat => regexMatchCI pat p.category) &&
  (match q.searchPat with
   | none => true
   | some s =>
       regexMatchCI s p.title || regexMatchCI s p.description ||
         p.tags.any (fun tg => regexMatchCI s tg))

/-! ## The store -/

/-- A storage operation, recorded in a trace so that "no query / no
insert happened" is a provable statement. -/
inductive StoreOp where
  | opQuery (coll : String)
  | opInsert (coll : String)
  deriving DecidableEq, Repr

/-- The database contents: the `product` and `order` collections. -/
structure DB where
  products : List Product
  orders : List OrderDoc
  deriving DecidableEq, Repr

/-- The world seen by a handler: the optional database handle (`db` may
be `None`) and the trace of storage operations performed. -/
structure World where
  db : Option DB
  trace : List StoreOp
  deriving DecidableEq, Repr

/-- Opaque stringification of a store-assigned identifier. -/
def oidStr (n : Nat) : String :=
  "ObjectId-" ++ toString n

/-- Modelled from the spec: `get_documents` of the `database` module
(not in the sources), find-many over the product collection with a
filter expression. -/
def get_documents (w : World) (coll : String) (q : Query) :
    List Product × World :=
  match w.db with
  | none => ([], w)
  | some d =>
      (d.products.filter (fun p => matchesQuery q p),
       { db := w.db, trace := w.trace ++ [StoreOp.opQuery coll] })

/-- Modelled from the spec: `create_document` of the `database` module
(not in the sources), insert-one into the order collection, returning
the assigned identifier as a string. -/
def create_document (w : World) (coll : String) (data : OrderDoc) :
    String × World :=
  match w.db with
  | none => ("", w)
  | some d =>
      (oidStr d.orders.length,
       { db := some { products := d.products, orders := d.orders ++ [data] },
         trace := w.trace ++ [StoreOp.opInsert coll] })

instance {ε α : Type} [DecidableEq ε] [DecidableEq α] : DecidableEq (Except ε α) :=
  fun a b =>
    match a, b with
    | Except.ok x, Except.ok y =>
        if h : x = y then isTrue (by rw [h])
        else isFalse (by intro hh; cases hh; exact h rfl)
    | Except.ok _, Except.error _ => isFalse (by intro hh; cases hh)
    | Except.error _, Except.ok _ => isFalse (by intro hh; cases hh)
    | Except.error x, Except.error y =>
        if h : x = y then isTrue (by rw [h])
        else isFalse (by intro hh; cases hh; exact h rfl)

/-! ## Request handlers -/

/-- An HTTP error raised by a handler (`HTTPException`). -/
structure HErr where
  status : Nat
  detail : String
  deriving DecidableEq, Repr

/-- Handler for `GET /api/products` (`list_products` in `src/main.py`): 500 when
the store is unavailable, otherwise find-many with the built filter. -/
def list_products (w : World) (category search : Option String) :
    Except HErr (List Product) × World :=
  match w.db with
  | none => (Except.error { status := 500, detail := "Database not available" }, w)
  | some _ =>
      let query := buildQuery category search
      let r := get_documents w "product" query
      (Except.ok r.fst, r.snd)

/-! ## Category listing -/

/-- Lexicographic comparison of strings by character code points, the
order used by Python's `sorted` on strings. -/
def lexLeB : List Char → List Char → Bool
  | [], _ => true
  | _ :: _, [] => false
  | a :: as, b :: bs =>
      a.val.toNat < b.val.toNat || (a.val.toNat == b.val.toNat && lexLeB as bs)

/-- String `a` precedes-or-equals `b` lexicographically. -/
def strLe (a b : String) : Prop := lexLeB a.data b.data = true

instance : DecidableRel strLe := fun _ _ => inferInstanceAs (Decidable (_ = true))

/-- Handler for `GET /api/categories` (`list_categories` in `src/main.py`): an
empty list when the store is unavailable, otherwise the distinct
(modelled from the spec: the store's distinct-values-of-field query)
truthy category values, sorted.  Python's stable `sorted` is embedded
as insertion sort over the lexicographic order. -/
def list_categories (w : World) : List String :=
  match w.db with
  | none => []
  | some d =>
      List.insertionSort strLe
        (((d.products.map Product.category).dedup).filter (fun c => !(c == "")))

/-! ## Order creation -/

/-- Round half to even (Python's `round`), at integer precision. -/
def roundHE (q : ℚ) : ℤ :=
  if Int.fract q < 1 / 2 then ⌊q⌋
  else if 1 / 2 < Int.fract q then ⌊q⌋ + 1
  else if ⌊q⌋ % 2 = 0 then ⌊q⌋ else ⌊q⌋ + 1

/-- Python's `round(x, 2)`: round to 2 decimal places, ties to even. -/
def round2 (q : ℚ) : ℚ := (roundHE (q * 100) : ℚ) / 100

/-- The response body of `POST /api/orders`. -/
structure CreateResp where
  id : String
  total : ℚ
  status : String
  deriving DecidableEq, Repr

/-- The body of `create_order` in `src/main.py`: 500 when the store is
unavailable; otherwise compute the total over the items, round it to 2
decimals, store the dumped payload plus total, and answer with the new
identifier, the total, and status `"received"`. -/
def create_order (w : World) (order : OrderCreate) :
    Except HErr CreateResp × World :=
  match w.db with
  | none => (Except.error { status := 500, detail := "Database not available" }, w)
  | some _ =>
      let total := order.items.foldl (fun acc it => acc + it.price * (it.quantity : ℚ)) 0
      let data : OrderDoc :=
        { name := order.name, email := order.email, address := order.address,
          items := order.items, notes := order.notes, total := round2 total }
      let r := create_document w "order" data
      (Except.ok { id := r.fst, total := data.total, status := "received" }, r.snd)

/-- The full `POST /api/orders` pipeline: the framework validates the
payload against the `OrderItem` schema (pydantic `Field(ge=1)` on
`quantity`) before the handler body runs; a violation is answered with
HTTP 422 and the handler is never entered. -/
def create_order_endpoint (w : World) (order : OrderCreate) :
    Except HErr CreateResp × World :=
  if order.items.all (fun it => decide (1 ≤ it.quantity)) then create_order w order
  else (Except.error { status := 422, detail := "Unprocessable Entity" }, w)

/-! ## Diagnostics endpoint -/

/-- The database handle as seen by `test_database`: a reported name
(`db.name`, absent when the handle has no such attribute) and the
outcome of `list_collection_names()`, which may raise. -/
structure TestDB where
  name : Option String
  collections : Except String (List String)
  deriving Repr

/-- The diagnostic report assembled by `test_database`. -/
structure Report where
  backend : String
  database : String
  database_url : Option String
  database_name : Option String
  connection_status : String
  collections : List String
  deriving DecidableEq, Repr

/-- Handler for `GET /test` (`test_database` in `src/main.py`): build the report,
fill in availability/name/collections when the handle is present,
catch a collection-listing failure into a descriptive string, and
finally overwrite `database_url` / `database_name` with the
presence-only rendering of the two environment variables. -/
def test_database (db : Option TestDB) (envUrl envName : Bool) : Report :=
  let r : Report :=
    { backend := "✅ Running", database := "❌ Not Available",
      database_url := none, database_name := none,
      connection_status := "Not Connected", collections := [] }
  let r :=
    match db with
    | some d =>
        let r := { r with database := "✅ Available",
                          database_url := some "✅ Configured",
                          database_name := some (match d.name with
                            | some nm => nm
                            | none => "✅ Connected"),
                          connection_status := "Connected" }
        match d.collections with
        | Except.ok cols =>
            { r with collections := cols.take 10,
                     database := "✅ Connected & Working" }
        | Except.error e =>
            { r with database := "⚠️  Connected but Error: " ++ e.take 50 }
    | none => { r with database := "⚠️  Available but not initialized" }
  { r with database_url := some (if envUrl then "✅ Set" else "❌ Not Set"),
           database_name := some (if envName then "✅ Set" else "❌ Not Set") }

/-- The `GET /test` endpoint: the handler returns the report as a plain
HTTP 200 response; no code path raises. -/
def test_database_endpoint (db : Option TestDB) (envUrl envName : Bool) :
    Except HErr Report :=
  Except.ok (test_database db envUrl envName)

/-- All strings appearing in a report, for stating what the report does
and does not contain. -/
def reportStrings (r : Report) : List String :=
  [r.backend, r.database, r.connection_status] ++ r.database_url.toList ++
    r.database_name.toList ++ r.collections

/-! ## Identifier serialization (`serialize_doc`) -/

/-- A stored field value.  `vOid` is a native database identifier
(`bson.ObjectId`, modelled as an opaque natural tag); the remaining
constructors cover the JSON-like values a record can hold. -/
inductive BVal where
  | vStr : String → BVal
  | vOid : Nat → BVal
  | vInt : ℤ → BVal
  | vBool : Bool → BVal
  | vNull : BVal
  deriving DecidableEq, Repr

/-- Python truthiness of a field value; `ObjectId` instances are always
truthy. -/
def bvTruthy : BVal → Bool
  | BVal.vStr s => !(s == "")
  | BVal.vOid _ => true
  | BVal.vInt n => !(n == 0)
  | BVal.vBool b => b
  | BVal.vNull => false

/-- Python `str()` of a field value (`str(ObjectId)` is its canonical
string form, modelled by `oidStr`). -/
def bvStr : BVal → String
  | BVal.vStr s => s
  | BVal.vOid n => oidStr n
  | BVal.vInt n => toString n
  | BVal.vBool b => if b then "True" else "False"
  | BVal.vNull => "None"

/-- A record: an ordered mapping of field names to values, as a Python
dict (keys unique in any dict-produced record). -/
abbrev Doc := List (String × BVal)

/-- Python `d.get(k)`: the value under the first occurrence of `k`. -/
def dGet : Doc → String → Option BVal
  | [], _ => none
  | e :: es, k => if e.fst = k then some e.snd else dGet es k

/-- Whether the key occurs in the record. -/
def hasKey : Doc → String → Bool
  | [], _ => false
  | e :: es, k => e.fst == k || hasKey es k

/-- Python `d.pop(k)`: the record without the key. -/
def dRemove : Doc → String → Doc
  | [], _ => []
  | e :: es, k => if e.fst = k then dRemove es k else e :: dRemove es k

/-- Python `d[k] = v`: update the existing entry in place, else append. -/
def dSet : Doc → String → BVal → Doc
  | [], k, v => [(k, v)]
  | e :: es, k, v => if e.fst = k then (k, v) :: es else e :: dSet es k v

/-- The conversion applied to every value by the final loop of
`serialize_doc`: a native identifier becomes its string form, anything
else is untouched. -/
def fixVal : BVal → BVal
  | BVal.vOid n => BVal.vStr (oidStr n)
  | v => v

/-- Application of `fixVal` to an entry. -/
def fixEntry (e : String × BVal) : String × BVal := (e.fst, fixVal e.snd)

/-- The rename step of `serialize_doc`: when `d.get("_id")` is truthy,
`d["id"] = str(d.pop("_id"))`; otherwise the record is unchanged. -/
def renameId (doc : Doc) : Doc :=
  match dGet doc "_id" with
  | some v =>
      if bvTruthy v then dSet (dRemove doc "_id") "id" (BVal.vStr (bvStr v)) else doc
  | none => doc

/-- The body of `serialize_doc` on a non-empty record: rename a truthy
`"_id"` to `"id"` with its value stringified, then convert every
remaining native-identifier value to a string. -/
def serializeCore (doc : Doc) : Doc :=
  (renameId doc).map fixEntry

/-- Function `serialize_doc` in `src/main.py`: a falsy (empty) record is
returned unchanged, otherwise a new record is built by `serializeCore`. -/
def serialize_doc (doc : Doc) : Doc :=
  if doc.isEmpty then doc else serializeCore doc

/-! ## Claim-language predicates

These definitions state the spec's vocabulary (case-insensitive
equality, case-insensitive substring, regex metacharacters) and are
used only on the property side of the theorems. -/

/-- Case-insensitive equality of strings: equal after lowering. -/
def lowerEq (a b : String) : Bool :=
  a.data.map Char.toLower == b.data.map Char.toLower

/-- The pattern `needle` occurs inside `hay` after lowering both. -/
def containsLC (needle : List Char) : List Char → Bool
  | [] => needle.isEmpty
  | c :: t => needle.isPrefixOf (c :: t) || containsLC needle t

/-- Whether `needle` is a case-insensitive substring of `hay`. -/
def ciSubstr (needle hay : String) : Bool :=
  containsLC (needle.data.map Char.toLower) (hay.data.map Char.toLower)

/-- The PCRE metacharacters; a string free of them denotes itself in a
regex. -/
def regexMeta : List Char :=
  ['.', '^', '$', '*', '+', '?', '(', ')', '[', ']', '\x7b', '\x7d', '|', '\\']

/-- The string contains no regex metacharacter. -/
def plainStr (s : String) : Prop := ∀ ch ∈ s.data, ch ∉ regexMeta

instance (s : String) : Decidable (plainStr s) :=
  inferInstanceAs (Decidable (∀ ch ∈ s.data, ch ∉ regexMeta))

/-! ## Concrete records used by witnesses and counterexamples -/

/-- A product whose category is the three literal characters `abc`. -/
def pAbc : Product :=
  { title := "abc", description := "plain", category := "abc", tags := [] }

/-- A tiny catalog for the witnesses. -/
def dCat : DB :=
  { products :=
      [{ title := "MoreNutrition Clear Whey", description := "isolate",
         category := "Protein", tags := ["protein", "sugar-free"] },
       { title := "Vitamin Gummies", description := "daily",
         category := "Vitamins", tags := ["vitamins"] },
       { title := "Protein Bar", description := "with whey pieces",
         category := "protein", tags := [] }],
    orders := [] }

/-- The record of the `serialize_doc` witness. -/
def dEx4 : Doc :=
  [("_id", BVal.vOid 7), ("title", BVal.vStr "x"), ("ref", BVal.vOid 9)]

/-- An order item with quantity 0, violating the `ge=1` bound. -/
def itEx5 : RawOrderItem :=
  { product_id := "p1", title := "Clear Whey", price := 2999 / 1000, quantity := 0 }

/-- An order payload carrying the invalid item. -/
def orderEx5 : OrderCreate :=
  { name := "A", email := "a@b.c", address := "Street 1", items := [itEx5], notes := none }

/-- The order of the spec's worked example:
items `[{price: 10, quantity: 2}, {price: 5, quantity: 3}]`. -/
def orderEx3 : OrderCreate :=
  { name := "A", email := "a@b.c", address := "Street 1",
    items := [{ product_id := "p1", title := "x", price := 10, quantity := 2 },
              { product_id := "p2", title := "y", price := 5, quantity := 3 }],
    notes := none }

/-- Products carrying the categories of the spec's category example. -/
def dEx7 : DB :=
  { products :=
      [{ pAbc with category := "Vitamins" }, { pAbc with category := "Protein" },
       { pAbc with category := "Protein" }],
    orders := [] }

/-- A live database handle reporting the name `mydb`. -/
def dbEx8 : TestDB :=
  { name := some "mydb", collections := Except.ok ["product", "order"] }

/-! ## Regex bridge lemmas

On metacharacter-free patterns the store's regex matcher is exactly
case-insensitive (sub)string comparison. -/

theorem dot_mem_regexMeta : '.' ∈ regexMeta := by decide

theorem caret_mem_regexMeta : '^' ∈ regexMeta := by decide

theorem dollar_mem_regexMeta : '$' ∈ regexMeta := by decide

theorem chMatch_plain {p : Char} (hp : p ∉ regexMeta) (t : Char) :
    chMatch p t = (p.toLower == t.toLower) := by
  have hdot : (p == '.') = false := by
    rw [beq_eq_false_iff_ne]
    intro hh
    exact hp (by rw [hh]; exact dot_mem_regexMeta)
  simp [chMatch, hdot]

theorem prefixMatch_plain (p : List Char) (hp : ∀ ch ∈ p, ch ∉ regexMeta)
    (t : List Char) :
    prefixMatch p t = (p.map Char.toLower).isPrefixOf (t.map Char.toLower) := by
  induction p generalizing t with
  | nil => cases t <;> simp [prefixMatch, List.isPrefixOf]
  | cons a as ih =>
      cases t with
      | nil => simp [prefixMatch, List.isPrefixOf]
      | cons b bs =>
          have ha : a ∉ regexMeta := hp a (List.mem_cons_self a as)
          have has : ∀ ch ∈ as, ch ∉ regexMeta := fun ch hch => hp ch (List.mem_cons_of_mem a hch)
          simp [prefixMatch, List.isPrefixOf, chMatch_plain ha, ih has]

theorem litFull_plain (p : List Char) (hp : ∀ ch ∈ p, ch ∉ regexMeta)
    (t : List Char) :
    litFull p t = (p.map Char.toLower == t.map Char.toLower) := by
  induction p generalizing t with
  | nil => cases t <;> simp [litFull]
  | cons a as ih =>
      cases t with
      | nil => simp [litFull]
      | cons b bs =>
          have ha : a ∉ regexMeta := hp a (List.mem_cons_self a as)
          have has : ∀ ch ∈ as, ch ∉ regexMeta := fun ch hch => hp ch (List.mem_cons_of_mem a hch)
          simp [litFull, chMatch_plain ha, ih has, List.cons_beq_cons]

theorem searchAny_plain (p : List Char) (hp : ∀ ch ∈ p, ch ∉ regexMeta)
    (t : List Char) :
    searchAny p t = containsLC (p.map Char.toLower) (t.map Char.toLower) := by
  induction t with
  | nil =>
      cases p <;> simp [searchAny, prefixMatch, containsLC]
  | cons b bs ih =>
      simp [searchAny, containsLC, prefixMatch_plain p hp, ih]

theorem stripCaret_plain {l : List Char} (h : ∀ ch ∈ l, ch ∉ regexMeta) :
    stripCaret l = (false, l) := by
  cases l with
  | nil => rfl
  | cons a r =>
      have ha : a ≠ '^' := by
        intro hh
        exact h a (List.mem_cons_self a r) (hh ▸ caret_mem_regexMeta)
      simp [stripCaret, ha]

theorem stripCaret_caret (l : List Char) : stripCaret ('^' :: l) = (true, l) := by
  simp [stripCaret]

theorem stripDollar_concat (l : List Char) : stripDollar (l ++ ['$']) = (true, l) := by
  unfold stripDollar
  rw [List.reverse_append]
  simp

theorem stripDollar_plain {l : List Char} (h : ∀ ch ∈ l, ch ∉ regexMeta) :
    stripDollar l = (false, l) := by
  unfold stripDollar
  cases hr : l.reverse with
  | nil => rfl
  | cons a r =>
      have ha : a ∈ l := by
        have hm : a ∈ l.reverse := by rw [hr]; exact List.mem_cons_self a r
        rwa [List.mem_reverse] at hm
      have hne : a ≠ '$' := by
        intro hh
        exact h a ha (by rw [hh]; exact dollar_mem_regexMeta)
      simp [hne]

theorem regexMatchCI_anchored (c : String) (hc : plainStr c) (t : String) :
    regexMatchCI ("^" ++ c ++ "$") t = lowerEq c t := by
  have hdata : ("^" ++ c ++ "$").data = '^' :: (c.data ++ ['$']) := by
    simp [String.data_append]
  unfold regexMatchCI
  rw [hdata, stripCaret_caret]
  simp only [stripDollar_concat]
  exact litFull_plain c.data hc t.data

theorem regexMatchCI_plain (s : String) (hs : plainStr s) (t : String) :
    regexMatchCI s t = ciSubstr s t := by
  unfold regexMatchCI
  rw [stripCaret_plain hs]
  simp only [stripDollar_plain hs]
  exact searchAny_plain s.data hs t.data

theorem lowerEq_comm (a b : String) : lowerEq a b = lowerEq b a := by
  unfold lowerEq
  cases h : (a.data.map Char.toLower == b.data.map Char.toLower) with
  | true => rw [beq_iff_eq] at h; rw [h, beq_self_eq_true]
  | false =>
      rw [beq_eq_false_iff_ne] at h
      rw [eq_comm, beq_eq_false_iff_ne]
      exact fun hh => h hh.symm

theorem buildQuery_category (c : String) (hc : c ≠ "") (s : Option String) :
    buildQuery (some c) s =
      { categoryPat := some ("^" ++ c ++ "$"), searchPat := buildQuery none s |>.searchPat } := by
  simp [buildQuery, optTruthy, hc]

/-- C1 (amended). For a supplied category string that is non-empty and
free of regex metacharacters, `listProducts(category=c)` returns
exactly the products whose category field equals `c` case-insensitively
as a whole (anchored full match): differing-case spellings match, and
no product whose category merely contains or extends `c` is returned. -/
theorem list_products_category_exact (d : DB) (tr : List StoreOp) (c : String)
    (hc : c ≠ "") (hp : plainStr c) :
    (list_products { db := some d, trace := tr } (some c) none).fst =
      Except.ok (d.products.filter (fun p => lowerEq p.category c)) := by
  simp only [list_products, get_documents]
  congr 1
  apply List.filter_congr
  intro p _
  rw [buildQuery_category c hc none]
  simp [matchesQuery, buildQuery, optTruthy, regexMatchCI_anchored c hp, lowerEq_comm]

/-- C1 witness: the amended statement at a concrete catalog and the
category string `Protein`. -/
theorem list_products_category_exact_witness :
    (list_products { db := some dCat, trace := [] } (some "Protein") none).fst =
      Except.ok (dCat.products.filter (fun p => lowerEq p.category "Protein")) :=
  list_products_category_exact dCat [] "Protein" (by decide) (by decide)

/-- C1 counterexample: with the category string `a.c` (a regex
metacharacter), the code returns the product whose category is `abc`,
which does not equal `a.c` case-insensitively, refuting the claim as
stated for arbitrary category strings. -/
theorem list_products_category_regex_injection :
    (list_products { db := some { products := [pAbc], orders := [] }, trace := [] }
        (some "a.c") none).fst = Except.ok [pAbc]
    ∧ lowerEq pAbc.category "a.c" = false := by decide

/-- The OR-of-three-fields search predicate of the spec: the search
string occurs case-insensitively in the title, the description, or
some tag. -/
def searchHits (s : String) (p : Product) : Bool :=
  ciSubstr s p.title || ciSubstr s p.description ||
    p.tags.any (fun tg => ciSubstr s tg)

theorem containsLC_nil (hay : List Char) : containsLC [] hay = true := by
  induction hay with
  | nil => rfl
  | cons c t ih => simp [containsLC, List.isPrefixOf]

theorem ciSubstr_empty (t : String) : ciSubstr "" t = true := by
  unfold ciSubstr
  have hd : ("" : String).data = [] := rfl
  rw [hd]
  exact containsLC_nil _

/-- C2 (amended). For a supplied search string free of regex
metacharacters, `listProducts(search=s)` returns exactly the products
where `s` occurs as a case-insensitive substring of the title, the
description, or some tag (OR of the three); and with a category also
supplied (non-empty, metacharacter-free), a product is returned iff it
satisfies the category exact-match clause AND the search OR-clause. -/
theorem list_products_search_substring (d : DB) (tr : List StoreOp) (s c : String)
    (hs : plainStr s) (hc : c ≠ "") (hcp : plainStr c) :
    (list_products { db := some d, trace := tr } none (some s)).fst =
      Except.ok (d.products.filter (fun p => searchHits s p))
    ∧ (list_products { db := some d, trace := tr } (some c) (some s)).fst =
      Except.ok (d.products.filter (fun p => lowerEq p.category c && searchHits s p)) := by
  by_cases hs0 : s = ""
  · subst hs0
    constructor
    · simp only [list_products, get_documents]
      congr 1
      have hall : ∀ p ∈ d.products, matchesQuery (buildQuery none (some "")) p =
          searchHits "" p := by
        intro p _
        simp [matchesQuery, buildQuery, optTruthy, searchHits, ciSubstr_empty]
      exact (List.filter_congr hall).symm ▸ rfl
    · simp only [list_products, get_documents]
      congr 1
      apply List.filter_congr
      intro p _
      rw [buildQuery_category c hc (some "")]
      simp [matchesQuery, buildQuery, optTruthy, searchHits, ciSubstr_empty,
        regexMatchCI_anchored c hcp, lowerEq_comm]
  · constructor
    · simp only [list_products, get_documents]
      congr 1
      apply List.filter_congr
      intro p _
      simp [matchesQuery, buildQuery, optTruthy, hs0, searchHits,
        regexMatchCI_plain s hs]
    · simp only [list_products, get_documents]
      congr 1
      apply List.filter_congr
      intro p _
      rw [buildQuery_category c hc (some s)]
      simp [matchesQuery, buildQuery, optTruthy, hs0, searchHits,
        regexMatchCI_plain s hs, regexMatchCI_anchored c hcp, lowerEq_comm]

/-- C2 witness: the amended statement at a concrete catalog with the
search string `whey` and the category string `Protein`. -/
theorem list_products_search_substring_witness :
    (list_products { db := some dCat, trace := [] } none (some "whey")).fst =
      Except.ok (dCat.products.filter (fun p => searchHits "whey" p))
    ∧ (list_products { db := some dCat, trace := [] } (some "Protein") (some "whey")).fst =
      Except.ok (dCat.products.filter
        (fun p => lowerEq p.category "Protein" && searchHits "whey" p)) :=
  list_products_search_substring dCat [] "whey" "Protein" (by decide) (by decide) (by decide)

/-- C2 counterexample: with the search string `a.c` (a regex
metacharacter), the code returns the product titled `abc` even though
`a.c` is not a case-insensitive substring of its title, description or
any tag, refuting the claim as stated for arbitrary search strings. -/
theorem list_products_search_regex_injection :
    (list_products { db := some { products := [pAbc], orders := [] }, trace := [] }
        none (some "a.c")).fst = Except.ok [pAbc]
    ∧ searchHits "a.c" pAbc = false := by decide

/-- C6. When the storage collaborator is unavailable (`db is None`),
`listProducts` and `createOrder` each fail with HTTP 500 and the
generic detail message, the world is unchanged, and in particular no
query and no insert is performed (the storage trace is untouched). -/
theorem unavailable_store_returns_500 (tr : List StoreOp) (c s : Option String)
    (order : OrderCreate) :
    list_products { db := none, trace := tr } c s =
      (Except.error { status := 500, detail := "Database not available" },
       { db := none, trace := tr })
    ∧ create_order { db := none, trace := tr } order =
      (Except.error { status := 500, detail := "Database not available" },
       { db := none, trace := tr }) :=
  ⟨rfl, rfl⟩

/-- C10. An empty-string `category` or `search` parameter is falsy in
Python, so no filter clause is added: the result is identical to the
unsupplied-parameter call, and with no filter at all every product is
returned. -/
theorem empty_filter_params_ignored (w : World) (c s : Option String)
    (d : DB) (tr : List StoreOp) :
    list_products w (some "") s = list_products w none s
    ∧ list_products w c (some "") = list_products w c none
    ∧ (list_products { db := some d, trace := tr } none none).fst =
        Except.ok d.products := by
  have h1 : buildQuery (some "") s = buildQuery none s := by
    simp [buildQuery, optTruthy]
  have h2 : buildQuery c (some "") = buildQuery c none := by
    simp [buildQuery, optTruthy]
  refine ⟨?_, ?_, ?_⟩
  · rcases w with ⟨db, tr0⟩
    cases db <;> simp [list_products, get_documents, h1]
  · rcases w with ⟨db, tr0⟩
    cases db <;> simp [list_products, get_documents, h2]
  · simp [list_products, get_documents, buildQuery, optTruthy, matchesQuery]

/-! ## Order totals -/

/-- The contribution of one item to the total: price × quantity. -/
def itemTotal (it : RawOrderItem) : ℚ := it.price * (it.quantity : ℚ)

theorem foldl_itemTotal (items : List RawOrderItem) (a : ℚ) :
    items.foldl (fun acc it => acc + it.price * (it.quantity : ℚ)) a =
      a + (items.map itemTotal).sum := by
  induction items generalizing a with
  | nil => simp
  | cons it rest ih => simp [ih, itemTotal, add_assoc]

theorem roundHE_close (q : ℚ) : |(roundHE q : ℚ) - q| ≤ 1 / 2 := by
  have h0 : 0 ≤ Int.fract q := Int.fract_nonneg q
  have h1 : Int.fract q < 1 := Int.fract_lt_one q
  have hfr : Int.fract q = q - (⌊q⌋ : ℚ) := rfl
  unfold roundHE
  by_cases hlt : Int.fract q < 1 / 2
  · rw [if_pos hlt, abs_sub_comm, abs_of_nonneg (by linarith [hfr ▸ h0])]
    linarith [hfr ▸ hlt]
  · rw [if_neg hlt]
    have hge : 1 / 2 ≤ Int.fract q := le_of_not_lt hlt
    by_cases hgt : 1 / 2 < Int.fract q
    · rw [if_pos hgt]
      have : ((⌊q⌋ + 1 : ℤ) : ℚ) - q = 1 - Int.fract q := by
        push_cast
        rw [hfr]
        ring
      rw [this, abs_of_nonneg (by linarith)]
      linarith
    · have heq : Int.fract q = 1 / 2 := le_antisymm (le_of_not_lt hgt) hge
      rw [if_neg hgt]
      by_cases hev : ⌊q⌋ % 2 = 0
      · rw [if_pos hev, abs_sub_comm]
        have : q - (⌊q⌋ : ℚ) = 1 / 2 := by rw [← hfr, heq]
        rw [this, abs_of_nonneg (by norm_num)]
      · rw [if_neg hev]
        have : ((⌊q⌋ + 1 : ℤ) : ℚ) - q = 1 / 2 := by
          push_cast
          rw [hfr] at heq
          linarith
        rw [this, abs_of_nonneg (by norm_num)]

theorem round2_close (q : ℚ) : |round2 q - q| ≤ 1 / 200 := by
  unfold round2
  have h : (roundHE (q * 100) : ℚ) / 100 - q = ((roundHE (q * 100) : ℚ) - q * 100) / 100 := by
    ring
  rw [h, abs_div]
  have h100 : |(100 : ℚ)| = 100 := by norm_num
  rw [h100]
  have := roundHE_close (q * 100)
  linarith

theorem roundHE_intCast (n : ℤ) : roundHE (n : ℚ) = n := by
  unfold roundHE
  rw [Int.fract_intCast]
  norm_num

/-- C3. `createOrder` (store available) computes the total as the sum
over the items of price × quantity rounded to 2 decimal places, stores
the dumped payload carrying exactly that total, and returns it with
status `received`; the rounded total is a multiple of 1/100 within
half a cent of the exact sum; and on the spec's worked example
(items 10×2 and 5×3) the returned total is 35. -/
theorem create_order_total_spec (d : DB) (tr : List StoreOp) (order : OrderCreate) :
    create_order { db := some d, trace := tr } order =
      (Except.ok { id := oidStr d.orders.length,
                   total := round2 ((order.items.map itemTotal).sum),
                   status := "received" },
       { db := some { products := d.products,
                      orders := d.orders ++
                        [{ name := order.name, email := order.email,
                           address := order.address, items := order.items,
                           notes := order.notes,
                           total := round2 ((order.items.map itemTotal).sum) }] },
         trace := tr ++ [StoreOp.opInsert "order"] })
    ∧ |round2 ((order.items.map itemTotal).sum) - (order.items.map itemTotal).sum| ≤ 1 / 200
    ∧ (∃ n : ℤ, round2 ((order.items.map itemTotal).sum) = (n : ℚ) / 100)
    ∧ (create_order { db := some { products := [], orders := [] }, trace := [] }
         orderEx3).fst =
        Except.ok { id := oidStr 0, total := 35, status := "received" } := by
  have hsum : ∀ items : List RawOrderItem,
      items.foldl (fun acc it => acc + it.price * (it.quantity : ℚ)) 0 =
        (items.map itemTotal).sum := by
    intro items
    rw [foldl_itemTotal]
    ring
  refine ⟨?_, round2_close _, ⟨roundHE (((order.items.map itemTotal).sum) * 100), rfl⟩, ?_⟩
  · simp only [create_order, create_document, hsum]
  · have h35 : (orderEx3.items.map itemTotal).sum = 35 := by
      simp [orderEx3, itemTotal]
      norm_num
    have hr : round2 (35 : ℚ) = 35 := by
      unfold round2
      have hc : (35 : ℚ) * 100 = ((3500 : ℤ) : ℚ) := by norm_num
      rw [hc, roundHE_intCast]
      norm_num
    simp [create_order, create_document, hsum, h35, hr]

/-- C5. Any order payload containing an item with quantity < 1 is
rejected by the validation layer with HTTP 422 before the handler
body runs: the world (database contents and storage trace) is
unchanged, so no storage call was made. -/
theorem create_order_rejects_invalid_quantity (w : World) (order : OrderCreate)
    (it : RawOrderItem) (hmem : it ∈ order.items) (hq : it.quantity < 1) :
    create_order_endpoint w order =
      (Except.error { status := 422, detail := "Unprocessable Entity" }, w) := by
  have hall : order.items.all (fun it => decide (1 ≤ it.quantity)) = false := by
    rw [List.all_eq_false]
    exact ⟨it, hmem, by simp [not_le.mpr hq]⟩
  simp [create_order_endpoint, hall]

/-- C5 witness: an order with a quantity-0 item is rejected with 422
and leaves a concrete world untouched. -/
theorem create_order_rejects_invalid_quantity_witness :
    create_order_endpoint { db := some dCat, trace := [] } orderEx5 =
      (Except.error { status := 422, detail := "Unprocessable Entity" },
       { db := some dCat, trace := [] }) :=
  create_order_rejects_invalid_quantity { db := some dCat, trace := [] } orderEx5
    itEx5 (List.mem_cons_self itEx5 []) (by decide)

/-! ## `serialize_doc` lemmas -/

theorem fixVal_idem (v : BVal) : fixVal (fixVal v) = fixVal v := by
  cases v <;> rfl

theorem fixEntry_idem (e : String × BVal) : fixEntry (fixEntry e) = fixEntry e := by
  cases e with
  | mk k v => cases v <;> rfl

theorem map_fixEntry_idem (d : Doc) :
    (d.map fixEntry).map fixEntry = d.map fixEntry := by
  induction d with
  | nil => rfl
  | cons e es ih => simp [fixEntry_idem, ih]

theorem dGet_map_fixEntry (d : Doc) (k : String) :
    dGet (d.map fixEntry) k = (dGet d k).map fixVal := by
  induction d with
  | nil => rfl
  | cons e es ih =>
      by_cases h : e.fst = k
      · simp [dGet, fixEntry, h]
      · simp [dGet, fixEntry, h, ih]

theorem hasKey_map_fixEntry (d : Doc) (k : String) :
    hasKey (d.map fixEntry) k = hasKey d k := by
  induction d with
  | nil => rfl
  | cons e es ih => simp [hasKey, fixEntry, ih]

theorem dGet_of_hasKey_eq_false {d : Doc} {k : String} (h : hasKey d k = false) :
    dGet d k = none := by
  induction d with
  | nil => rfl
  | cons e es ih =>
      rw [hasKey, Bool.or_eq_false_iff] at h
      rw [dGet, if_neg (by simpa using h.1)]
      exact ih h.2

theorem hasKey_dRemove_self (d : Doc) (k : String) :
    hasKey (dRemove d k) k = false := by
  induction d with
  | nil => rfl
  | cons e es ih =>
      by_cases h : e.fst = k
      · simp [dRemove, h, ih]
      · simp [dRemove, h, hasKey, ih]

theorem hasKey_dSet_ne (d : Doc) {k k2 : String} (v : BVal) (h : k2 ≠ k) :
    hasKey (dSet d k v) k2 = hasKey d k2 := by
  induction d with
  | nil => simp [dSet, hasKey, Ne.symm h]
  | cons e es ih =>
      by_cases he : e.fst = k
      · simp [dSet, he, hasKey, Ne.symm h]
      · simp [dSet, he, hasKey, ih]

theorem dGet_dSet_self (d : Doc) (k : String) (v : BVal) :
    dGet (dSet d k v) k = some v := by
  induction d with
  | nil => simp [dSet, dGet]
  | cons e es ih =>
      by_cases he : e.fst = k
      · simp [dSet, he, dGet]
      · simp [dSet, he, dGet, ih]

theorem mem_dSet_of_ne {d : Doc} {k1 k : String} {w : BVal} (v : BVal)
    (h : k1 ≠ k) (hmem : (k1, w) ∈ d) : (k1, w) ∈ dSet d k v := by
  induction d with
  | nil => cases hmem
  | cons e es ih =>
      by_cases he : e.fst = k
      · rcases List.mem_cons.mp hmem with heq | hm
        · exact absurd (by rw [← heq] at he; exact he) h
        · simp [dSet, he, List.mem_cons, hm]
      · rcases List.mem_cons.mp hmem with heq | hm
        · simp [dSet, he, ← heq, h]
        · simp [dSet, he, List.mem_cons, ih hm]

theorem mem_dRemove_of_ne {d : Doc} {k1 k : String} {w : BVal}
    (h : k1 ≠ k) (hmem : (k1, w) ∈ d) : (k1, w) ∈ dRemove d k := by
  induction d with
  | nil => cases hmem
  | cons e es ih =>
      by_cases he : e.fst = k
      · rcases List.mem_cons.mp hmem with heq | hm
        · exact absurd (by rw [← heq] at he; exact he) h
        · simp [dRemove, he, ih hm]
      · rcases List.mem_cons.mp hmem with heq | hm
        · simp [dRemove, he, ← heq, h]
        · simp [dRemove, he, List.mem_cons, ih hm]

theorem dSet_ne_nil (d : Doc) (k : String) (v : BVal) : dSet d k v ≠ [] := by
  cases d with
  | nil => simp [dSet]
  | cons e es =>
      by_cases he : e.fst = k <;> simp [dSet, he]

theorem bvTruthy_false_fixVal {v : BVal} (h : bvTruthy v = false) : fixVal v = v := by
  cases v <;> first | rfl | cases h

theorem renameId_of_none {d : Doc} (h : dGet d "_id" = none) : renameId d = d := by
  unfold renameId
  rw [h]

theorem renameId_of_truthy {d : Doc} {v : BVal} (h : dGet d "_id" = some v)
    (ht : bvTruthy v = true) :
    renameId d = dSet (dRemove d "_id") "id" (BVal.vStr (bvStr v)) := by
  unfold renameId
  rw [h]
  simp [ht]

theorem renameId_of_falsy {d : Doc} {v : BVal} (h : dGet d "_id" = some v)
    (ht : bvTruthy v = false) : renameId d = d := by
  unfold renameId
  rw [h]
  simp [ht]

theorem serializeCore_ne_nil {d : Doc} (h : d ≠ []) : serializeCore d ≠ [] := by
  unfold serializeCore
  rw [ne_eq, List.map_eq_nil_iff]
  cases hg : dGet d "_id" with
  | none => rw [renameId_of_none hg]; exact h
  | some v =>
      cases ht : bvTruthy v with
      | true => rw [renameId_of_truthy hg ht]; exact dSet_ne_nil _ _ _
      | false => rw [renameId_of_falsy hg ht]; exact h

theorem serialize_doc_of_ne_nil {d : Doc} (h : d ≠ []) :
    serialize_doc d = serializeCore d := by
  rw [serialize_doc, if_neg (by simpa [List.isEmpty_iff] using h)]

theorem serializeCore_idem (d : Doc) :
    serializeCore (serializeCore d) = serializeCore d := by
  cases hg : dGet d "_id" with
  | none =>
      have hc : serializeCore d = d.map fixEntry := by
        rw [serializeCore, renameId_of_none hg]
      have hg2 : dGet (serializeCore d) "_id" = none := by
        rw [hc, dGet_map_fixEntry, hg]
        rfl
      rw [serializeCore, renameId_of_none hg2, hc, map_fixEntry_idem]
  | some v =>
      cases ht : bvTruthy v with
      | true =>
          have hc : serializeCore d =
              (dSet (dRemove d "_id") "id" (BVal.vStr (bvStr v))).map fixEntry := by
            rw [serializeCore, renameId_of_truthy hg ht]
          have hk : hasKey (serializeCore d) "_id" = false := by
            rw [hc, hasKey_map_fixEntry,
              hasKey_dSet_ne _ _ (by decide), hasKey_dRemove_self]
          rw [serializeCore, renameId_of_none (dGet_of_hasKey_eq_false hk), hc,
            map_fixEntry_idem]
      | false =>
          have hc : serializeCore d = d.map fixEntry := by
            rw [serializeCore, renameId_of_falsy hg ht]
          have hg2 : dGet (serializeCore d) "_id" = some v := by
            rw [hc, dGet_map_fixEntry, hg]
            simp [bvTruthy_false_fixVal ht]
          rw [serializeCore, renameId_of_falsy hg2 ht, hc, map_fixEntry_idem]

/-- C4 (amended). `serialize_doc` is idempotent on every record; an
empty record is returned unchanged (the model is a pure function, so
the input mapping is never mutated); a native-identifier `"_id"` is
renamed to `"id"` with its value stringified and no `"_id"` key
survives; and every other native-identifier value under a key other
than the reserved `"id"` target is converted to its string form (a
pre-existing `"id"` entry is instead overwritten by the renamed
identifier; see the counterexample). -/
theorem serialize_doc_props (d : Doc) :
    serialize_doc (serialize_doc d) = serialize_doc d
    ∧ serialize_doc ([] : Doc) = []
    ∧ (∀ n : Nat, dGet d "_id" = some (BVal.vOid n) →
        dGet (serialize_doc d) "id" = some (BVal.vStr (oidStr n))
          ∧ hasKey (serialize_doc d) "_id" = false)
    ∧ (∀ (k : String) (n : Nat), k ≠ "_id" → k ≠ "id" → (k, BVal.vOid n) ∈ d →
        (k, BVal.vStr (oidStr n)) ∈ serialize_doc d) := by
  refine ⟨?_, rfl, ?_, ?_⟩
  · by_cases hd : d = []
    · subst hd
      rfl
    · rw [serialize_doc_of_ne_nil hd,
        serialize_doc_of_ne_nil (serializeCore_ne_nil hd), serializeCore_idem]
  · intro n hg
    have hd : d ≠ [] := by
      intro hh
      subst hh
      cases hg
    have hc : serialize_doc d =
        (dSet (dRemove d "_id") "id" (BVal.vStr (oidStr n))).map fixEntry := by
      rw [serialize_doc_of_ne_nil hd, serializeCore, renameId_of_truthy hg rfl]
      rfl
    constructor
    · rw [hc, dGet_map_fixEntry, dGet_dSet_self]
      rfl
    · rw [hc, hasKey_map_fixEntry, hasKey_dSet_ne _ _ (by decide), hasKey_dRemove_self]
  · intro k n hk1 hk2 hmem
    have hd : d ≠ [] := by
      intro hh
      subst hh
      cases hmem
    rw [serialize_doc_of_ne_nil hd, serializeCore]
    have hfix : fixEntry (k, BVal.vOid n) = (k, BVal.vStr (oidStr n)) := rfl
    cases hg : dGet d "_id" with
    | none =>
        rw [renameId_of_none hg]
        exact hfix ▸ List.mem_map_of_mem fixEntry hmem
    | some v =>
        cases ht : bvTruthy v with
        | true =>
            rw [renameId_of_truthy hg ht]
            exact hfix ▸ List.mem_map_of_mem fixEntry
              (mem_dSet_of_ne _ hk2 (mem_dRemove_of_ne hk1 hmem))
        | false =>
            rw [renameId_of_falsy hg ht]
            exact hfix ▸ List.mem_map_of_mem fixEntry hmem

/-- C4 witness: on a record with a native `"_id"` and another native
identifier under `"ref"`, serialization renames and stringifies, and a
second application is a no-op. -/
theorem serialize_doc_props_witness :
    serialize_doc (serialize_doc dEx4) = serialize_doc dEx4
    ∧ dGet (serialize_doc dEx4) "id" = some (BVal.vStr (oidStr 7))
    ∧ hasKey (serialize_doc dEx4) "_id" = false
    ∧ ("ref", BVal.vStr (oidStr 9)) ∈ serialize_doc dEx4 :=
  ⟨(serialize_doc_props dEx4).1,
   ((serialize_doc_props dEx4).2.2.1 7 (by decide)).1,
   ((serialize_doc_props dEx4).2.2.1 7 (by decide)).2,
   (serialize_doc_props dEx4).2.2.2 "ref" 9 (by decide) (by decide) (by decide)⟩

/-- C4 counterexample: on a record holding both a native `"_id"` and a
native identifier under the key `"id"`, the code overwrites the `"id"`
entry with the renamed `"_id"`, so the original `"id"` value is not
converted-and-kept as the claim states for every other key. -/
theorem serialize_doc_id_clobbered :
    ("id", BVal.vOid 2) ∈ ([("_id", BVal.vOid 1), ("id", BVal.vOid 2)] : Doc)
    ∧ "id" ≠ "_id"
    ∧ ("id", BVal.vStr (oidStr 2)) ∉
        serialize_doc ([("_id", BVal.vOid 1), ("id", BVal.vOid 2)] : Doc) := by
  decide

/-! ## Category listing lemmas -/

theorem lexLeB_total (a b : List Char) : lexLeB a b = true ∨ lexLeB b a = true := by
  induction a generalizing b with
  | nil => exact Or.inl rfl
  | cons x xs ih =>
      cases b with
      | nil => exact Or.inr rfl
      | cons y ys =>
          rcases Nat.lt_trichotomy x.val.toNat y.val.toNat with hlt | heq | hgt
          · exact Or.inl (by simp [lexLeB, hlt])
          · rcases ih ys with h | h
            · exact Or.inl (by simp [lexLeB, heq, h])
            · exact Or.inr (by simp [lexLeB, heq.symm, h])
          · exact Or.inr (by simp [lexLeB, hgt])

theorem lexLeB_trans {a b c : List Char} (h1 : lexLeB a b = true)
    (h2 : lexLeB b c = true) : lexLeB a c = true := by
  induction a generalizing b c with
  | nil => rfl
  | cons x xs ih =>
      cases b with
      | nil => cases h1
      | cons y ys =>
          cases c with
          | nil => cases h2
          | cons z zs =>
              simp only [lexLeB, Bool.or_eq_true, Bool.and_eq_true,
                decide_eq_true_eq, Nat.beq_eq_true_eq] at h1 h2 ⊢
              rcases h1 with h1 | ⟨h1e, h1r⟩
              · rcases h2 with h2 | ⟨h2e, _⟩
                · exact Or.inl (h1.trans h2)
                · exact Or.inl (h2e ▸ h1)
              · rcases h2 with h2 | ⟨h2e, h2r⟩
                · exact Or.inl (h1e ▸ h2)
                · exact Or.inr ⟨h1e.trans h2e, ih h1r h2r⟩

instance : IsTotal String strLe :=
  ⟨fun a b => lexLeB_total a.data b.data⟩

instance : IsTrans String strLe :=
  ⟨fun _ _ _ => lexLeB_trans⟩

/-- C7. `listCategories` returns the distinct truthy (non-empty)
category values lexicographically sorted without duplicates; when the
store is unavailable it returns the empty sequence instead of an
error; and on stored categories `Vitamins, Protein, Protein` it
returns `[Protein, Vitamins]`. -/
theorem list_categories_distinct_sorted (tr : List StoreOp) (d : DB) :
    list_categories { db := none, trace := tr } = []
    ∧ (list_categories { db := some d, trace := tr }).Sorted strLe
    ∧ (list_categories { db := some d, trace := tr }).Nodup
    ∧ (list_categories { db := some d, trace := tr }).toFinset =
        ((d.products.map Product.category).filter (fun c => !(c == ""))).toFinset
    ∧ list_categories { db := some dEx7, trace := [] } = ["Protein", "Vitamins"] := by
  refine ⟨rfl, ?_, ?_, ?_, by decide⟩
  · exact List.sorted_insertionSort strLe _
  · have hperm := List.perm_insertionSort strLe
      (((d.products.map Product.category).dedup).filter (fun c => !(c == "")))
    exact hperm.nodup_iff.mpr (List.Nodup.filter _ (List.nodup_dedup _))
  · have hperm := List.perm_insertionSort strLe
      (((d.products.map Product.category).dedup).filter (fun c => !(c == "")))
    show (List.insertionSort strLe
      (((d.products.map Product.category).dedup).filter (fun c => !(c == "")))).toFinset = _
    rw [List.toFinset_eq_of_perm _ _ hperm]
    apply Finset.ext
    intro a
    simp [List.mem_toFinset, List.mem_filter, List.mem_dedup]

/-! ## Diagnostics endpoint theorems -/

/-- C8 (code bug evidence). With a live handle reporting the database
name `mydb` and both environment variables set, the final report's
`database_name` field holds the env-presence string, and `mydb`
appears nowhere in the report: the name assigned inside the handler is
unconditionally overwritten by the env-presence rendering. -/
theorem test_database_name_overwritten :
    (test_database (some dbEx8) true true).database_name = some "✅ Set"
    ∧ "mydb" ∉ reportStrings (test_database (some dbEx8) true true) := by
  decide

/-- C9. `testDatabase` is total over every store state: the report
always says the backend is running, carries at most the first 10
collection names, and the endpoint never yields an error status; the
absent-store and listing-failure states are rendered as descriptive
strings in the `database` field, and a working store contributes
exactly the first 10 collection names. -/
theorem test_database_total_report :
    (∀ (db : Option TestDB) (u v : Bool),
        (test_database db u v).backend = "✅ Running"
        ∧ (test_database db u v).collections.length ≤ 10
        ∧ test_database_endpoint db u v = Except.ok (test_database db u v))
    ∧ (∀ u v : Bool,
        (test_database none u v).database = "⚠️  Available but not initialized"
        ∧ (test_database none u v).collections = [])
    ∧ (∀ (nm : Option String) (e : String) (u v : Bool),
        (test_database (some { name := nm, collections := Except.error e }) u v).database =
          "⚠️  Connected but Error: " ++ e.take 50)
    ∧ (∀ (nm : Option String) (cols : List String) (u v : Bool),
        (test_database (some { name := nm, collections := Except.ok cols }) u v).database =
          "✅ Connected & Working"
        ∧ (test_database (some { name := nm, collections := Except.ok cols }) u v).collections =
            cols.take 10) := by
  refine ⟨?_, fun u v => ⟨rfl, rfl⟩, fun nm e u v => ?_, fun nm cols u v => ⟨?_, ?_⟩⟩
  · intro db u v
    refine ⟨?_, ?_, rfl⟩
    · rcases db with _ | d
      · rfl
      · rcases d with ⟨nm, cols⟩
        cases cols <;> rfl
    · rcases db with _ | d
      · simp [test_database]
      · rcases d with ⟨nm, cols⟩
        cases cols with
        | error e => simp [test_database]
        | ok l =>
            simp only [test_database, List.length_take]
            exact min_le_left 10 l.length
  · rfl
  · rfl
  · rfl

end Backend
